import Mathlib

/-!
Verification of the ConfigResolver specification for the
DeepLearning-Best-Practices repository.

The repository itself only contains tutorial notebooks that call the
configuration-composition library; the resolver that the specification
describes (load, applyOverrides, resolveInterpolations over a ConfigNode
tree) is not part of the repository files.  Every definition below is
therefore modelled from the specification text and the claims are settled
against this model.
-/

namespace ConfigResolver

/-- Modelled from the spec: a Scalar is a string, number, boolean or null
leaf value.  A numeric scalar is a decimal literal, kept as an integer
together with the number of digits after the decimal point, so the value of
`num n k` is n divided by 10 to the k. -/
inductive Scalar where
  | str : String → Scalar
  | num : Int → Nat → Scalar
  | bool : Bool → Scalar
  | null : Scalar

mutual
/-- Modelled from the spec: a ConfigNode is recursively a Scalar, a Mapping
from string keys to ConfigNodes with insertion order preserved, or a
Sequence of ConfigNodes.  (The resolver's code is not in the repository;
only its notebook caller is.) -/
inductive ConfigNode where
  | scalar : Scalar → ConfigNode
  | mapping : EntryList → ConfigNode
  | sequence : ItemList → ConfigNode

/-- Modelled from the spec: the ordered entries of a Mapping node. -/
inductive EntryList where
  | nil : EntryList
  | cons : String → ConfigNode → EntryList → EntryList

/-- Modelled from the spec: the ordered items of a Sequence node. -/
inductive ItemList where
  | nil : ItemList
  | cons : ConfigNode → ItemList → ItemList
end

/-- Build an EntryList from a list of key-node pairs (notation helper). -/
def entsOf : List (String × ConfigNode) → EntryList
  | [] => EntryList.nil
  | (k, c) :: rest => EntryList.cons k c (entsOf rest)

/-- Build an ItemList from a list of nodes (notation helper). -/
def itemsOf : List ConfigNode → ItemList
  | [] => ItemList.nil
  | c :: rest => ItemList.cons c (itemsOf rest)

/-- Modelled from the spec: the error taxonomy of the resolver, each error
carrying the offending path or string. -/
inductive Err where
  | pathNotFound : List String → Err
  | keyAlreadyExists : List String → Err
  | cyclicInterpolation : List String → List (List String) → Err
  | unresolvedReference : List String → Err
  | typeMismatch : List String → Err
  | malformedOverride : String → Err
  | outOfFuel : Err

/-- The kind of a resolver result, used to state which error class an
operation produces. -/
inductive RKind where
  | okRes : RKind
  | pathMissing : RKind
  | keyExists : RKind
  | cyclicRef : RKind
  | unresolvedRef : RKind
  | typeWrong : RKind
  | malformed : RKind
  | fuelOut : RKind
deriving DecidableEq

/-- The kind of an error value. -/
def errKind : Err → RKind
  | Err.pathNotFound _ => RKind.pathMissing
  | Err.keyAlreadyExists _ => RKind.keyExists
  | Err.cyclicInterpolation _ _ => RKind.cyclicRef
  | Err.unresolvedReference _ => RKind.unresolvedRef
  | Err.typeMismatch _ => RKind.typeWrong
  | Err.malformedOverride _ => RKind.malformed
  | Err.outOfFuel => RKind.fuelOut

/-- The kind of a result. -/
def resKind {α : Type} : Except Err α → RKind
  | Except.ok _ => RKind.okRes
  | Except.error e => errKind e

/-- True unless the result is the fuel-exhaustion marker. -/
def notFuelOut {α : Type} : Except Err α → Bool
  | Except.error Err.outOfFuel => false
  | _ => true

/-- Modelled from the spec: the mode of an override, Set, Add or Delete. -/
inductive OvMode where
  | set : OvMode
  | add : OvMode
  | del : OvMode

/-- Modelled from the spec: a parsed Override with a dotted path, a mode
and a value (absent for Delete). -/
structure Override where
  path : List String
  mode : OvMode
  value : Option ConfigNode

/-- Look a key up in a Mapping entry list (first match). -/
def lookupEnt : EntryList → String → Option ConfigNode
  | EntryList.nil, _ => none
  | EntryList.cons k c rest, key => if k = key then some c else lookupEnt rest key

/-- Replace the value of the first entry with the given key, keeping order. -/
def updateEnt : EntryList → String → ConfigNode → EntryList
  | EntryList.nil, _, _ => EntryList.nil
  | EntryList.cons k c rest, key, v =>
      if k = key then EntryList.cons k v rest else EntryList.cons k c (updateEnt rest key v)

/-- Remove the first entry with the given key, keeping order. -/
def removeEnt : EntryList → String → EntryList
  | EntryList.nil, _ => EntryList.nil
  | EntryList.cons k c rest, key =>
      if k = key then rest else EntryList.cons k c (removeEnt rest key)

/-- Append an entry at the end of the list. -/
def appendEnt : EntryList → String → ConfigNode → EntryList
  | EntryList.nil, key, v => EntryList.cons key v EntryList.nil
  | EntryList.cons k c rest, key, v => EntryList.cons k c (appendEnt rest key v)

/-- Modelled from the spec: resolve a dotted path in a tree, descending
through Mapping nodes only.  The empty path resolves to the tree itself. -/
def lookupPath : ConfigNode → List String → Option ConfigNode
  | t, [] => some t
  | ConfigNode.mapping es, k :: rest =>
      match lookupEnt es k with
      | some c => lookupPath c rest
      | none => none
  | _, _ :: _ => none

/-- Modelled from the spec: Set requires every path segment before the last
to resolve to an existing Mapping and the final key to already exist;
otherwise it fails with PathNotFoundError. -/
def setPath : ConfigNode → List String → ConfigNode → Except Err ConfigNode
  | _, [], v => Except.ok v
  | ConfigNode.mapping es, k :: rest, v =>
      match lookupEnt es k with
      | none => Except.error (Err.pathNotFound (k :: rest))
      | some c =>
          match rest with
          | [] => Except.ok (ConfigNode.mapping (updateEnt es k v))
          | _ :: _ =>
              match setPath c rest v with
              | Except.error e => Except.error e
              | Except.ok c2 => Except.ok (ConfigNode.mapping (updateEnt es k c2))
  | _, ks@(_ :: _), _ => Except.error (Err.pathNotFound ks)

/-- The entries of a node when it is a Mapping, and the empty entry list
otherwise (Add rebuilds a Mapping in the latter case). -/
def entsOfNode : ConfigNode → EntryList
  | ConfigNode.mapping es => es
  | _ => EntryList.nil

/-- Modelled from the spec: Add creates intermediate Mapping nodes for any
missing path segment and fails with KeyAlreadyExistsError if the final key
already exists. -/
def addPath : ConfigNode → List String → ConfigNode → Except Err ConfigNode
  | _, [], _ => Except.error (Err.keyAlreadyExists [])
  | t, k :: rest, v =>
      match lookupEnt (entsOfNode t) k with
      | some c =>
          match rest with
          | [] => Except.error (Err.keyAlreadyExists (k :: rest))
          | _ :: _ =>
              match addPath c rest v with
              | Except.error e => Except.error e
              | Except.ok c2 => Except.ok (ConfigNode.mapping (updateEnt (entsOfNode t) k c2))
      | none =>
          match rest with
          | [] => Except.ok (ConfigNode.mapping (appendEnt (entsOfNode t) k v))
          | _ :: _ =>
              match addPath (ConfigNode.mapping EntryList.nil) rest v with
              | Except.error e => Except.error e
              | Except.ok c2 => Except.ok (ConfigNode.mapping (appendEnt (entsOfNode t) k c2))

/-- Modelled from the spec: Delete fails with PathNotFoundError if the path
does not exist, and otherwise removes the addressed key. -/
def deletePath : ConfigNode → List String → Except Err ConfigNode
  | _, [] => Except.error (Err.pathNotFound [])
  | ConfigNode.mapping es, k :: rest =>
      match lookupEnt es k with
      | none => Except.error (Err.pathNotFound (k :: rest))
      | some c =>
          match rest with
          | [] => Except.ok (ConfigNode.mapping (removeEnt es k))
          | _ :: _ =>
              match deletePath c rest with
              | Except.error e => Except.error e
              | Except.ok c2 => Except.ok (ConfigNode.mapping (updateEnt es k c2))
  | _, ks@(_ :: _) => Except.error (Err.pathNotFound ks)

/-- Modelled from the spec: apply one parsed Override to the working tree. -/
def applyOverride (t : ConfigNode) (ov : Override) : Except Err ConfigNode :=
  match ov.mode with
  | OvMode.set =>
      match ov.value with
      | some v => setPath t ov.path v
      | none => Except.error (Err.malformedOverride "")
  | OvMode.add =>
      match ov.value with
      | some v => addPath t ov.path v
      | none => Except.error (Err.malformedOverride "")
  | OvMode.del => deletePath t ov.path

/-- The dollar character that opens an interpolation token. -/
def dollarChar : Char := '$'

/-- The opening brace character of an interpolation token. -/
def lbraceChar : Char := Char.ofNat 123

/-- The closing brace character of an interpolation token. -/
def rbraceChar : Char := Char.ofNat 125

/-- The opening square bracket of a sequence literal. -/
def lbrackChar : Char := '['

/-- The closing square bracket of a sequence literal. -/
def rbrackChar : Char := ']'

/-- The dot separating path segments. -/
def dotChar : Char := '.'

/-- Split a character list on every dot. -/
def splitOnDot : List Char → List (List Char)
  | [] => [[]]
  | c :: rest =>
      let r := splitOnDot rest
      if c = dotChar then [] :: r
      else
        match r with
        | [] => [[c]]
        | g :: gs => (c :: g) :: gs

/-- Whether a character is a decimal digit. -/
def isDigitChar (c : Char) : Bool := decide ('0' ≤ c) && decide (c ≤ '9')

/-- The numeric value of a list of decimal digits, if nonempty and all
digits. -/
def digitsToNat : List Char → Option Nat
  | [] => none
  | cs => go cs 0
where
  go : List Char → Nat → Option Nat
  | [], acc => some acc
  | c :: rest, acc =>
      if isDigitChar c then go rest (acc * 10 + (c.toNat - 48)) else none

/-- Modelled from the spec: parse an unquoted numeric token, an optional
minus sign, an integer part and an optional fractional part, into an
integer numerator and a decimal shift. -/
def parseDecimal (cs : List Char) : Option (Int × Nat) :=
  let core : List Char → Option (Int × Nat) := fun body =>
    match splitOnDot body with
    | [ip] => (digitsToNat ip).map (fun n => ((n : Int), 0))
    | [ip, fp] =>
        match digitsToNat ip, digitsToNat fp with
        | some n, some f => some (((n * 10 ^ fp.length + f : Nat) : Int), fp.length)
        | _, _ => none
    | _ => none
  match cs with
  | '-' :: body => (core body).map (fun nf => (-nf.1, nf.2))
  | body => core body

/-- Split a character list on top-level commas, tracking bracket and brace
depth. -/
def splitTopComma : List Char → Nat → List Char → List (List Char)
  | [], _, acc => [acc.reverse]
  | c :: rest, depth, acc =>
      if (c = lbrackChar ∨ c = lbraceChar) then splitTopComma rest (depth + 1) (c :: acc)
      else if (c = rbrackChar ∨ c = rbraceChar) then splitTopComma rest (depth - 1) (c :: acc)
      else if (c = ',' ∧ depth = 0) then acc.reverse :: splitTopComma rest depth []
      else splitTopComma rest depth (c :: acc)

/-- Split a character list at the first colon, if any. -/
def splitFirstColon : List Char → Option (List Char × List Char)
  | [] => none
  | c :: rest =>
      if c = ':' then some ([], rest)
      else (splitFirstColon rest).map (fun pr => (c :: pr.1, pr.2))

/-- Split a character list at the first equals sign, if any. -/
def splitFirstEq : List Char → Option (List Char × List Char)
  | [] => none
  | c :: rest =>
      if c = '=' then some ([], rest)
      else (splitFirstEq rest).map (fun pr => (c :: pr.1, pr.2))

/-- Modelled from the spec: parse a value literal.  Unquoted numeric tokens
become numbers, true, false and null their scalar kinds, bracketed forms a
Sequence or Mapping, and everything else a string.  Recursion is bounded by
the length of the input. -/
def parseValueFuel : Nat → List Char → ConfigNode
  | 0, cs => ConfigNode.scalar (Scalar.str (String.mk cs))
  | fuel + 1, cs =>
      if cs = "true".data then ConfigNode.scalar (Scalar.bool true)
      else if cs = "false".data then ConfigNode.scalar (Scalar.bool false)
      else if cs = "null".data then ConfigNode.scalar Scalar.null
      else
        match parseDecimal cs with
        | some nf => ConfigNode.scalar (Scalar.num nf.1 nf.2)
        | none =>
            match cs with
            | c :: rest =>
                if (c = lbrackChar ∧ rest ≠ [] ∧ rest.getLast? = some rbrackChar) then
                  let inner := rest.dropLast
                  if inner = [] then ConfigNode.sequence (itemsOf [])
                  else
                    ConfigNode.sequence
                      (itemsOf ((splitTopComma inner 0 []).map (parseValueFuel fuel)))
                else if (c = lbraceChar ∧ rest ≠ [] ∧ rest.getLast? = some rbraceChar) then
                  let inner := rest.dropLast
                  if inner = [] then ConfigNode.mapping (entsOf [])
                  else
                    ConfigNode.mapping
                      (entsOf ((splitTopComma inner 0 []).map (fun seg =>
                        match splitFirstColon seg with
                        | some kv => (String.mk kv.1, parseValueFuel fuel kv.2)
                        | none => (String.mk seg, ConfigNode.scalar Scalar.null))))
                else ConfigNode.scalar (Scalar.str (String.mk cs))
            | [] => ConfigNode.scalar (Scalar.str "")

/-- Modelled from the spec: parse a value literal from override text. -/
def parseValue (s : String) : ConfigNode := parseValueFuel (s.length + 1) s.data

/-- Modelled from the spec: split path text on dots; every segment must be
nonempty, otherwise the override is malformed. -/
def parsePathChars (orig : String) (cs : List Char) : Except Err (List String) :=
  let segs := splitOnDot cs
  if segs.any (fun seg => seg.isEmpty) then Except.error (Err.malformedOverride orig)
  else Except.ok (segs.map String.mk)

/-- Modelled from the spec: parse a raw override string with the grammar
(plus)path=value, where a leading plus sets mode Add, a leading tilde or
the absence of =value sets mode Delete, and no leading symbol sets mode
Set. -/
def parseOverride (s : String) : Except Err Override :=
  match s.data with
  | [] => Except.error (Err.malformedOverride s)
  | c :: rest =>
      if c = '+' then
        match splitFirstEq rest with
        | none => Except.error (Err.malformedOverride s)
        | some pv =>
            match parsePathChars s pv.1 with
            | Except.error e => Except.error e
            | Except.ok p => Except.ok ⟨p, OvMode.add, some (parseValue (String.mk pv.2))⟩
      else if c = '~' then
        let pcs := match splitFirstEq rest with
          | some pv => pv.1
          | none => rest
        match parsePathChars s pcs with
        | Except.error e => Except.error e
        | Except.ok p => Except.ok ⟨p, OvMode.del, none⟩
      else
        match splitFirstEq (c :: rest) with
        | some pv =>
            match parsePathChars s pv.1 with
            | Except.error e => Except.error e
            | Except.ok p => Except.ok ⟨p, OvMode.set, some (parseValue (String.mk pv.2))⟩
        | none =>
            match parsePathChars s (c :: rest) with
            | Except.error e => Except.error e
            | Except.ok p => Except.ok ⟨p, OvMode.del, none⟩

/-- Modelled from the spec: load makes the working copy of the base tree;
in this pure model it is the identity. -/
def load (base : ConfigNode) : ConfigNode := base

/-- Parse every raw override string, stopping at the first malformed one. -/
def parseAll : List String → Except Err (List Override)
  | [] => Except.ok []
  | r :: rest =>
      match parseOverride r with
      | Except.error e => Except.error e
      | Except.ok ov =>
          match parseAll rest with
          | Except.error e => Except.error e
          | Except.ok ovs => Except.ok (ov :: ovs)

/-- Apply parsed overrides strictly in input order, stopping at the first
failure. -/
def applyAll : ConfigNode → List Override → Except Err ConfigNode
  | t, [] => Except.ok t
  | t, ov :: rest =>
      match applyOverride t ov with
      | Except.error e => Except.error e
      | Except.ok t2 => applyAll t2 rest

/-- Modelled from the spec: parse every raw override first, then apply the
parsed overrides to the tree strictly in input order. -/
def applyOverrides (t : ConfigNode) (raws : List String) : Except Err ConfigNode :=
  match parseAll raws with
  | Except.error e => Except.error e
  | Except.ok ovs => applyAll t ovs

/-- Modelled from the spec: the state-passing form of applyOverrides.  The
working tree is swapped for the new tree only when the whole operation
succeeds, so a failure leaves the tree exactly as it was. -/
def runApplyOverrides (t : ConfigNode) (raws : List String) : ConfigNode × Option Err :=
  match applyOverrides t raws with
  | Except.ok t2 => (t2, none)
  | Except.error e => (t, some e)

/-- A piece of a Scalar string: literal text or one interpolation
reference with its dotted path. -/
inductive Token where
  | lit : String → Token
  | ref : List String → Token

/-- Whether a token is a reference. -/
def isRefTok : Token → Bool
  | Token.lit _ => false
  | Token.ref _ => true

/-- Whether a token list contains a reference. -/
def hasRefTok (toks : List Token) : Bool := toks.any isRefTok

/-- Modelled from the spec: scan a character list for interpolation tokens
of the form dollar-brace path brace.  An unterminated opener is kept as
literal text.  Recursion is bounded by the length of the input. -/
def splitTokensGo : Nat → List Char → List Char → List Token
  | 0, acc, cs =>
      match acc.reverse ++ cs with
      | [] => []
      | left => [Token.lit (String.mk left)]
  | fuel + 1, acc, cs =>
      match cs with
      | [] =>
          match acc.reverse with
          | [] => []
          | left => [Token.lit (String.mk left)]
      | c :: rest =>
          if (c = dollarChar ∧ rest.head? = some lbraceChar) then
            let body := rest.tail
            let inner := body.takeWhile (fun d => d ≠ rbraceChar)
            match body.drop inner.length with
            | _ :: after =>
                let tok := Token.ref ((splitOnDot inner).map String.mk)
                match acc.reverse with
                | [] => tok :: splitTokensGo fuel [] after
                | left => Token.lit (String.mk left) :: tok :: splitTokensGo fuel [] after
            | [] =>
                match acc.reverse ++ cs with
                | [] => []
                | left => [Token.lit (String.mk left)]
          else splitTokensGo fuel (c :: acc) rest

/-- Modelled from the spec: the tokens of a Scalar string. -/
def splitTokens (s : String) : List Token := splitTokensGo (s.length + 1) [] s.data

/-- Pad a string on the left with zeros up to the given length. -/
def padZeros (len : Nat) (s : String) : String :=
  String.mk (List.replicate (len - s.length) '0') ++ s

/-- Modelled from the spec: the string conversion of a Scalar used when an
interpolation token is surrounded by other text. -/
def scalarText : Scalar → String
  | Scalar.str s => s
  | Scalar.num n 0 => toString n
  | Scalar.num n (k + 1) =>
      let m := n.natAbs
      let d := 10 ^ (k + 1)
      (if n < 0 then "-" else "") ++ toString (m / d) ++ "." ++ padZeros (k + 1) (toString (m % d))
  | Scalar.bool true => "true"
  | Scalar.bool false => "false"
  | Scalar.null => "null"

/-- Modelled from the spec: the expected text of a text-concatenation
context, literal tokens kept as they are and every reference token
substituted via the string conversion of the Scalar the tree holds at the
referenced path. -/
def joinToks (root : ConfigNode) : List Token → String
  | [] => ""
  | Token.lit l :: rest => l ++ joinToks root rest
  | Token.ref p :: rest =>
      (match lookupPath root p with
       | some (ConfigNode.scalar sc) => scalarText sc
       | _ => "") ++ joinToks root rest

mutual
/-- Apply a scalar-resolution function to every Scalar of a tree, keeping
the shape of Mappings and Sequences. -/
def mapScalarsN (f : Scalar → Except Err ConfigNode) : ConfigNode → Except Err ConfigNode
  | ConfigNode.scalar sc => f sc
  | ConfigNode.mapping es => Except.map ConfigNode.mapping (mapScalarsE f es)
  | ConfigNode.sequence xs => Except.map ConfigNode.sequence (mapScalarsI f xs)

/-- mapScalarsN over the entries of a Mapping. -/
def mapScalarsE (f : Scalar → Except Err ConfigNode) : EntryList → Except Err EntryList
  | EntryList.nil => Except.ok EntryList.nil
  | EntryList.cons k c rest =>
      match mapScalarsN f c with
      | Except.error e => Except.error e
      | Except.ok c2 =>
          match mapScalarsE f rest with
          | Except.error e => Except.error e
          | Except.ok r2 => Except.ok (EntryList.cons k c2 r2)

/-- mapScalarsN over the items of a Sequence. -/
def mapScalarsI (f : Scalar → Except Err ConfigNode) : ItemList → Except Err ItemList
  | ItemList.nil => Except.ok ItemList.nil
  | ItemList.cons c rest =>
      match mapScalarsN f c with
      | Except.error e => Except.error e
      | Except.ok c2 =>
          match mapScalarsI f rest with
          | Except.error e => Except.error e
          | Except.ok r2 => Except.ok (ItemList.cons c2 r2)
end

mutual
/-- Whether a Bool-valued scalar test holds for every Scalar of a tree. -/
def scalarsOkN (g : Scalar → Bool) : ConfigNode → Bool
  | ConfigNode.scalar sc => g sc
  | ConfigNode.mapping es => scalarsOkE g es
  | ConfigNode.sequence xs => scalarsOkI g xs

/-- scalarsOkN over the entries of a Mapping. -/
def scalarsOkE (g : Scalar → Bool) : EntryList → Bool
  | EntryList.nil => true
  | EntryList.cons _ c rest => scalarsOkN g c && scalarsOkE g rest

/-- scalarsOkN over the items of a Sequence. -/
def scalarsOkI (g : Scalar → Bool) : ItemList → Bool
  | ItemList.nil => true
  | ItemList.cons c rest => scalarsOkN g c && scalarsOkI g rest
end

/-- Whether a Scalar is free of interpolation tokens. -/
def tokenFreeScalar : Scalar → Bool
  | Scalar.str s => !(hasRefTok (splitTokens s))
  | _ => true

/-- Whether every Scalar string of a tree is free of interpolation
tokens. -/
def tokenFree (t : ConfigNode) : Bool := scalarsOkN tokenFreeScalar t

mutual
/-- Every dotted path of the tree that lookupPath can resolve through
Mapping nodes. -/
def pathsN : ConfigNode → List (List String)
  | ConfigNode.scalar _ => [[]]
  | ConfigNode.mapping es => [] :: pathsE es
  | ConfigNode.sequence _ => [[]]

/-- pathsN over the entries of a Mapping. -/
def pathsE : EntryList → List (List String)
  | EntryList.nil => []
  | EntryList.cons k c rest => (pathsN c).map (fun p => k :: p) ++ pathsE rest
end

/-- The interpolation fuel for a tree: strictly more than the number of
paths, so that the visitation stack can never grow past it. -/
def fuelInterp (t : ConfigNode) : Nat := (pathsN t).length + 1

/-- Walk the tokens of a text-concatenation context: literals are appended,
and each reference is resolved by the given follower, must resolve to a
Scalar, and is appended via string conversion. -/
def resolveToksWith (follow : List String → Except Err ConfigNode) :
    List Token → String → Except Err String
  | [], acc => Except.ok acc
  | Token.lit l :: rest, acc => resolveToksWith follow rest (acc ++ l)
  | Token.ref p :: rest, acc =>
      match follow p with
      | Except.error e => Except.error e
      | Except.ok (ConfigNode.scalar sc2) => resolveToksWith follow rest (acc ++ scalarText sc2)
      | Except.ok _ => Except.error (Err.typeMismatch p)

/-- Resolve one Scalar with the given reference follower: a Scalar string
that is exactly one interpolation token is substituted verbatim, one with
tokens surrounded by other text is rebuilt by string concatenation, and
anything else is returned unchanged. -/
def resolveScalarWith (follow : List String → Except Err ConfigNode) : Scalar → Except Err ConfigNode
  | Scalar.str s =>
      if hasRefTok (splitTokens s) then
        match splitTokens s with
        | [Token.ref p] => follow p
        | toks =>
            match resolveToksWith follow toks "" with
            | Except.error e => Except.error e
            | Except.ok joined => Except.ok (ConfigNode.scalar (Scalar.str joined))
      else Except.ok (ConfigNode.scalar (Scalar.str s))
  | sc2 => Except.ok (ConfigNode.scalar sc2)

/-- Modelled from the spec: resolve the Scalars of a tree against the root
tree, following interpolation references transitively with a visitation
stack of in-progress paths for cycle detection.  The fuel argument only
decreases when a reference is followed. -/
def resolveWithFuel (root : ConfigNode) : Nat → List (List String) → ConfigNode → Except Err ConfigNode
  | 0, _, _ => Except.error Err.outOfFuel
  | fuel + 1, stack, t =>
      mapScalarsN (resolveScalarWith (fun p =>
        if p ∈ stack then Except.error (Err.cyclicInterpolation p stack)
        else
          match lookupPath root p with
          | none => Except.error (Err.unresolvedReference p)
          | some v => resolveWithFuel root fuel (p :: stack) v)) t

/-- One reference-following step of the resolver, at the given remaining
fuel. -/
def followRef (root : ConfigNode) (fuel : Nat) (stack : List (List String))
    (p : List String) : Except Err ConfigNode :=
  if p ∈ stack then Except.error (Err.cyclicInterpolation p stack)
  else
    match lookupPath root p with
    | none => Except.error (Err.unresolvedReference p)
    | some v => resolveWithFuel root fuel (p :: stack) v

/-- The scalar-resolution function the resolver maps over the tree at the
given remaining fuel. -/
def resolveScalar (root : ConfigNode) (fuel : Nat) (stack : List (List String)) : Scalar → Except Err ConfigNode :=
  resolveScalarWith (followRef root fuel stack)

/-- Modelled from the spec: resolveInterpolations scans every Scalar string
for interpolation tokens and substitutes the referenced values, producing a
new tree. -/
def resolveInterpolations (t : ConfigNode) : Except Err ConfigNode :=
  resolveWithFuel t (fuelInterp t) [] t

/-- Modelled from the spec: resolve the value at one dotted path of the
tree, with that path as the in-progress visitation stack. -/
def resolvePathTop (root : ConfigNode) (p : List String) : Except Err ConfigNode :=
  match lookupPath root p with
  | none => Except.error (Err.unresolvedReference p)
  | some v => resolveWithFuel root (fuelInterp root) [p] v

/-- Modelled from the spec: composition of a base tree with an ordered list
of raw overrides, followed by interpolation resolution. -/
def compose (base : ConfigNode) (raws : List String) : Except Err ConfigNode :=
  match applyOverrides (load base) raws with
  | Except.error e => Except.error e
  | Except.ok t => resolveInterpolations t

/-- Whether the first dotted path is a prefix of the second (including
equality). -/
def pathLe : List String → List String → Bool
  | [], _ => true
  | _ :: _, [] => false
  | a :: as2, b :: bs => if a = b then pathLe as2 bs else false

/-- Whether two dotted paths are comparable: one a prefix of the other. -/
def pathCmp (p q : List String) : Bool := pathLe p q || pathLe q p

/-- Structural equality of scalars. -/
def beqScalar : Scalar → Scalar → Bool
  | Scalar.str s1, Scalar.str s2 => decide (s1 = s2)
  | Scalar.num n1 k1, Scalar.num n2 k2 => decide (n1 = n2) && decide (k1 = k2)
  | Scalar.bool b1, Scalar.bool b2 => decide (b1 = b2)
  | Scalar.null, Scalar.null => true
  | _, _ => false

mutual
/-- Structural equality of trees. -/
def beqN : ConfigNode → ConfigNode → Bool
  | ConfigNode.scalar sc1, ConfigNode.scalar sc2 => beqScalar sc1 sc2
  | ConfigNode.mapping es1, ConfigNode.mapping es2 => beqE es1 es2
  | ConfigNode.sequence xs1, ConfigNode.sequence xs2 => beqI xs1 xs2
  | _, _ => false

/-- Structural equality of entry lists. -/
def beqE : EntryList → EntryList → Bool
  | EntryList.nil, EntryList.nil => true
  | EntryList.cons k1 c1 r1, EntryList.cons k2 c2 r2 =>
      decide (k1 = k2) && beqN c1 c2 && beqE r1 r2
  | _, _ => false

/-- Structural equality of item lists. -/
def beqI : ItemList → ItemList → Bool
  | ItemList.nil, ItemList.nil => true
  | ItemList.cons c1 r1, ItemList.cons c2 r2 => beqN c1 c2 && beqI r1 r2
  | _, _ => false
end

/-- The number of tree paths not yet on the visitation stack; following a
reference strictly decreases it. -/
def remCount (root : ConfigNode) (stack : List (List String)) : Nat :=
  ((pathsN root).filter (fun q => decide (q ∉ stack))).length

/-- Whether a node is a Mapping or a Sequence. -/
def isContainer : ConfigNode → Bool
  | ConfigNode.mapping _ => true
  | ConfigNode.sequence _ => true
  | ConfigNode.scalar _ => false

/-- The base tree of the composed example exactly as the specification
states it, dropout included. -/
def ex1Base : ConfigNode :=
  ConfigNode.mapping (entsOf [
    ("learning_rate", ConfigNode.scalar (Scalar.num 1 1)),
    ("batch_size", ConfigNode.scalar (Scalar.num 32 0)),
    ("mlp", ConfigNode.mapping (entsOf [
      ("in_channels", ConfigNode.scalar (Scalar.num 10 0)),
      ("hidden_channels", ConfigNode.sequence (itemsOf [ConfigNode.scalar (Scalar.num 100 0)])),
      ("dropout", ConfigNode.scalar (Scalar.num 1 1))]))])

/-- The overrides of the composed example. -/
def ex1Ovs : List String := ["+mlp.dropout=0.5", "mlp.in_channels=150"]

/-- The base tree of the composed example without the dropout key, the
form on which the Add override can succeed. -/
def ex1BaseB : ConfigNode :=
  ConfigNode.mapping (entsOf [
    ("learning_rate", ConfigNode.scalar (Scalar.num 1 1)),
    ("batch_size", ConfigNode.scalar (Scalar.num 32 0)),
    ("mlp", ConfigNode.mapping (entsOf [
      ("in_channels", ConfigNode.scalar (Scalar.num 10 0)),
      ("hidden_channels", ConfigNode.sequence (itemsOf [ConfigNode.scalar (Scalar.num 100 0)]))]))])

/-- The expected result of the composed example. -/
def ex1Expected : ConfigNode :=
  ConfigNode.mapping (entsOf [
    ("learning_rate", ConfigNode.scalar (Scalar.num 1 1)),
    ("batch_size", ConfigNode.scalar (Scalar.num 32 0)),
    ("mlp", ConfigNode.mapping (entsOf [
      ("in_channels", ConfigNode.scalar (Scalar.num 150 0)),
      ("hidden_channels", ConfigNode.sequence (itemsOf [ConfigNode.scalar (Scalar.num 100 0)])),
      ("dropout", ConfigNode.scalar (Scalar.num 5 1))]))])

/-- The two-scalar cyclic tree of the cycle-detection property. -/
def cycTree : ConfigNode :=
  ConfigNode.mapping (entsOf [
    ("a", ConfigNode.scalar (Scalar.str "${b}")),
    ("b", ConfigNode.scalar (Scalar.str "${a}"))])

/-- The transitive-resolution example tree. -/
def ex7Tree : ConfigNode :=
  ConfigNode.mapping (entsOf [
    ("a", ConfigNode.scalar (Scalar.num 1 0)),
    ("b", ConfigNode.scalar (Scalar.str "${a}")),
    ("c", ConfigNode.scalar (Scalar.str "value is ${b}"))])

/-- The expected resolution of the transitive example. -/
def ex7Expected : ConfigNode :=
  ConfigNode.mapping (entsOf [
    ("a", ConfigNode.scalar (Scalar.num 1 0)),
    ("b", ConfigNode.scalar (Scalar.num 1 0)),
    ("c", ConfigNode.scalar (Scalar.str "value is 1"))])

/-- A tree on which text concatenation manufactures a new interpolation
token: the literal dollar followed by the substituted braces of the value
at a forms a token referring to x. -/
def ex6Tree : ConfigNode :=
  ConfigNode.mapping (entsOf [
    ("a", ConfigNode.scalar (Scalar.str "\x7bx\x7d")),
    ("c", ConfigNode.scalar (Scalar.str "$$\x7ba\x7d")),
    ("x", ConfigNode.scalar (Scalar.num 42 0))])

/-- The first resolution of ex6Tree: the value at c has become a new
interpolation token. -/
def ex6Once : ConfigNode :=
  ConfigNode.mapping (entsOf [
    ("a", ConfigNode.scalar (Scalar.str "\x7bx\x7d")),
    ("c", ConfigNode.scalar (Scalar.str "${x}")),
    ("x", ConfigNode.scalar (Scalar.num 42 0))])

/-- The second resolution of ex6Tree: the new token has been followed, so
the two resolutions differ. -/
def ex6Twice : ConfigNode :=
  ConfigNode.mapping (entsOf [
    ("a", ConfigNode.scalar (Scalar.str "\x7bx\x7d")),
    ("c", ConfigNode.scalar (Scalar.num 42 0)),
    ("x", ConfigNode.scalar (Scalar.num 42 0))])

/-- A nested tree showing that an override changes paths strictly below
its target path. -/
def ex10Tree : ConfigNode :=
  ConfigNode.mapping (entsOf [
    ("a", ConfigNode.mapping (entsOf [
      ("b", ConfigNode.mapping (entsOf [("z", ConfigNode.scalar (Scalar.num 7 0))]))]))])

/-- A one-key tree for the atomicity witnesses. -/
def ex4Tree : ConfigNode := ConfigNode.mapping (entsOf [("a", ConfigNode.scalar (Scalar.num 1 0))])

/-- A tree with a Mapping value for the verbatim-substitution property. -/
def ex8Tree : ConfigNode :=
  ConfigNode.mapping (entsOf [
    ("m", ConfigNode.mapping (entsOf [("x", ConfigNode.scalar (Scalar.num 1 0))])),
    ("w", ConfigNode.scalar (Scalar.str "${m}")),
    ("tc", ConfigNode.scalar (Scalar.str "m is ${m}"))])

/-- The base tree for the frame-property witness, with the target key and
hidden channels of the notebook example. -/
def ex10Base : ConfigNode :=
  ConfigNode.mapping (entsOf [
    ("learning_rate", ConfigNode.scalar (Scalar.num 1 1)),
    ("batch_size", ConfigNode.scalar (Scalar.num 32 0)),
    ("mlp", ConfigNode.mapping (entsOf [
      ("_target_", ConfigNode.scalar (Scalar.str "torchvision.ops.MLP")),
      ("in_channels", ConfigNode.scalar (Scalar.num 10 0)),
      ("hidden_channels", ConfigNode.sequence (itemsOf [ConfigNode.scalar (Scalar.num 100 0)]))]))])

/-- The frame-property witness base after the two overrides of the
composed example: only mlp.dropout and mlp.in_channels changed. -/
def ex10After : ConfigNode :=
  ConfigNode.mapping (entsOf [
    ("learning_rate", ConfigNode.scalar (Scalar.num 1 1)),
    ("batch_size", ConfigNode.scalar (Scalar.num 32 0)),
    ("mlp", ConfigNode.mapping (entsOf [
      ("_target_", ConfigNode.scalar (Scalar.str "torchvision.ops.MLP")),
      ("in_channels", ConfigNode.scalar (Scalar.num 150 0)),
      ("hidden_channels", ConfigNode.sequence (itemsOf [ConfigNode.scalar (Scalar.num 100 0)])),
      ("dropout", ConfigNode.scalar (Scalar.num 5 1))]))])

/-- The tree of ex10Tree after the Set override on a.b replaced the whole
Mapping below a.b by the number 1. -/
def ex10TreeAfter : ConfigNode :=
  ConfigNode.mapping (entsOf [
    ("a", ConfigNode.mapping (entsOf [("b", ConfigNode.scalar (Scalar.num 1 0))]))])

/-! Lemmas about entry lists. -/

theorem lookupEnt_update_self : ∀ (es : EntryList) (k : String) (v c : ConfigNode),
    lookupEnt es k = some c → lookupEnt (updateEnt es k v) k = some v
  | EntryList.nil, k, v, c => by
      intro h
      simp [lookupEnt] at h
  | EntryList.cons k0 c0 rest, k, v, c => by
      intro h
      by_cases hk : k0 = k
      · subst hk
        simp [lookupEnt, updateEnt]
      · simp [lookupEnt, updateEnt, hk] at h ⊢
        exact lookupEnt_update_self rest k v c h

theorem lookupEnt_update_ne : ∀ (es : EntryList) (k j : String) (v : ConfigNode),
    j ≠ k → lookupEnt (updateEnt es k v) j = lookupEnt es j
  | EntryList.nil, k, j, v => by
      intro h
      rfl
  | EntryList.cons k0 c0 rest, k, j, v => by
      intro h
      by_cases hk : k0 = k
      · subst hk
        simp [lookupEnt, updateEnt]
        rw [if_neg (fun h2 => h h2.symm), if_neg (fun h2 => h h2.symm)]
      · simp [updateEnt, hk, lookupEnt]
        by_cases hj : k0 = j
        · simp [hj]
        · simp [hj]
          exact lookupEnt_update_ne rest k j v h

theorem lookupEnt_append_self : ∀ (es : EntryList) (k : String) (v : ConfigNode),
    lookupEnt es k = none → lookupEnt (appendEnt es k v) k = some v
  | EntryList.nil, k, v => by
      intro h
      simp [appendEnt, lookupEnt]
  | EntryList.cons k0 c0 rest, k, v => by
      intro h
      by_cases hk : k0 = k
      · simp [lookupEnt, hk] at h
      · simp [lookupEnt, appendEnt, hk] at h ⊢
        exact lookupEnt_append_self rest k v h

theorem lookupEnt_append_ne : ∀ (es : EntryList) (k j : String) (v : ConfigNode),
    j ≠ k → lookupEnt (appendEnt es k v) j = lookupEnt es j
  | EntryList.nil, k, j, v => by
      intro h
      simp [appendEnt, lookupEnt]
      intro h2
      exact absurd h2.symm h
  | EntryList.cons k0 c0 rest, k, j, v => by
      intro h
      by_cases hj : k0 = j
      · simp [appendEnt, lookupEnt, hj]
      · simp [appendEnt, lookupEnt, hj]
        exact lookupEnt_append_ne rest k j v h

theorem lookupEnt_remove_ne : ∀ (es : EntryList) (k j : String),
    j ≠ k → lookupEnt (removeEnt es k) j = lookupEnt es j
  | EntryList.nil, k, j => by
      intro h
      rfl
  | EntryList.cons k0 c0 rest, k, j => by
      intro h
      by_cases hk : k0 = k
      · subst hk
        simp [removeEnt, lookupEnt]
        rw [if_neg (fun h2 => h h2.symm)]
      · simp [removeEnt, hk, lookupEnt]
        by_cases hj : k0 = j
        · simp [hj]
        · simp [hj]
          exact lookupEnt_remove_ne rest k j h

/-! Lemmas about the path operations. -/

theorem setPath_kind_none : ∀ (p : List String) (t v : ConfigNode),
    lookupPath t p = none → resKind (setPath t p v) = RKind.pathMissing
  | [], t, v => by
      intro h
      simp [lookupPath] at h
  | k :: rest, t, v => by
      intro h
      cases t with
      | scalar sc => simp [setPath, resKind, errKind]
      | sequence xs => simp [setPath, resKind, errKind]
      | mapping es =>
          simp only [lookupPath] at h
          cases hle : lookupEnt es k with
          | none => simp [setPath, hle, resKind, errKind]
          | some c =>
              rw [hle] at h
              cases rest with
              | nil => simp [lookupPath] at h
              | cons r rs =>
                  have ih := setPath_kind_none (r :: rs) c v h
                  simp only [setPath, hle]
                  cases hset : setPath c (r :: rs) v with
                  | error e =>
                      rw [hset] at ih
                      simpa [resKind] using ih
                  | ok c2 =>
                      rw [hset] at ih
                      simp [resKind] at ih

theorem setPath_ok : ∀ (p : List String) (t w v : ConfigNode),
    lookupPath t p = some w →
    ∃ t2, setPath t p v = Except.ok t2 ∧ lookupPath t2 p = some v
  | [], t, w, v => by
      intro h
      exact ⟨v, by cases t <;> rfl, by cases v <;> rfl⟩
  | k :: rest, t, w, v => by
      intro h
      cases t with
      | scalar sc => simp [lookupPath] at h
      | sequence xs => simp [lookupPath] at h
      | mapping es =>
          simp only [lookupPath] at h
          cases hle : lookupEnt es k with
          | none => rw [hle] at h; simp at h
          | some c =>
              rw [hle] at h
              cases rest with
              | nil =>
                  refine ⟨ConfigNode.mapping (updateEnt es k v), by simp [setPath, hle], ?_⟩
                  simp only [lookupPath]
                  rw [lookupEnt_update_self es k v c hle]
              | cons r rs =>
                  obtain ⟨c2, hset, hlook⟩ := setPath_ok (r :: rs) c w v h
                  refine ⟨ConfigNode.mapping (updateEnt es k c2), ?_, ?_⟩
                  · simp [setPath, hle, hset]
                  · simp only [lookupPath]
                    rw [lookupEnt_update_self es k c2 c hle]
                    exact hlook

theorem setPath_frame : ∀ (p : List String) (t v t2 : ConfigNode) (q : List String),
    setPath t p v = Except.ok t2 → pathLe p q = false → pathLe q p = false →
    lookupPath t2 q = lookupPath t q
  | [], t, v, t2, q => by
      intro hset hpq hqp
      simp [pathLe] at hpq
  | k :: rest, t, v, t2, q => by
      intro hset hpq hqp
      cases t with
      | scalar sc => simp [setPath] at hset
      | sequence xs => simp [setPath] at hset
      | mapping es =>
          cases hle : lookupEnt es k with
          | none => simp [setPath, hle] at hset
          | some c =>
              cases q with
              | nil => simp [pathLe] at hqp
              | cons j qs =>
                  by_cases hj : j = k
                  · subst hj
                    rw [show pathLe (j :: rest) (j :: qs) = pathLe rest qs by simp [pathLe]] at hpq
                    rw [show pathLe (j :: qs) (j :: rest) = pathLe qs rest by simp [pathLe]] at hqp
                    cases rest with
                    | nil => simp [pathLe] at hpq
                    | cons r rs =>
                        cases hsub : setPath c (r :: rs) v with
                        | error e => simp [setPath, hle, hsub] at hset
                        | ok c2 =>
                            simp [setPath, hle, hsub] at hset
                            subst hset
                            simp only [lookupPath]
                            rw [lookupEnt_update_self es j c2 c hle, hle]
                            exact setPath_frame (r :: rs) c v c2 qs hsub hpq hqp
                  · have hfind : ∀ x, lookupEnt (updateEnt es k x) j = lookupEnt es j :=
                      fun x => lookupEnt_update_ne es k j x hj
                    cases rest with
                    | nil =>
                        simp [setPath, hle] at hset
                        subst hset
                        simp only [lookupPath]
                        rw [hfind v]
                    | cons r rs =>
                        cases hsub : setPath c (r :: rs) v with
                        | error e => simp [setPath, hle, hsub] at hset
                        | ok c2 =>
                            simp [setPath, hle, hsub] at hset
                            subst hset
                            simp only [lookupPath]
                            rw [hfind c2]

theorem lookupPath_nil : ∀ t : ConfigNode, lookupPath t [] = some t := by
  intro t
  cases t <;> rfl

theorem addPath_cons_eq (t : ConfigNode) (k : String) (rest : List String) (v : ConfigNode) :
    addPath t (k :: rest) v =
      match lookupEnt (entsOfNode t) k with
      | some c =>
          match rest with
          | [] => Except.error (Err.keyAlreadyExists (k :: rest))
          | _ :: _ =>
              match addPath c rest v with
              | Except.error e => Except.error e
              | Except.ok c2 => Except.ok (ConfigNode.mapping (updateEnt (entsOfNode t) k c2))
      | none =>
          match rest with
          | [] => Except.ok (ConfigNode.mapping (appendEnt (entsOfNode t) k v))
          | _ :: _ =>
              match addPath (ConfigNode.mapping EntryList.nil) rest v with
              | Except.error e => Except.error e
              | Except.ok c2 => Except.ok (ConfigNode.mapping (appendEnt (entsOfNode t) k c2)) := by
  cases rest <;> rfl

theorem addPath_isSome : ∀ (p : List String) (t v : ConfigNode),
    (lookupPath t p).isSome = true → resKind (addPath t p v) = RKind.keyExists
  | [], t, v => by
      intro h
      cases t <;> simp [addPath, resKind, errKind]
  | k :: rest, t, v => by
      intro h
      cases t with
      | scalar sc => simp [lookupPath] at h
      | sequence xs => simp [lookupPath] at h
      | mapping es =>
          simp only [lookupPath] at h
          cases hle : lookupEnt es k with
          | none => rw [hle] at h; simp at h
          | some c =>
              rw [hle] at h
              rw [addPath_cons_eq]
              simp only [entsOfNode]
              cases rest with
              | nil => simp [hle, resKind, errKind]
              | cons r rs =>
                  have ih := addPath_isSome (r :: rs) c v h
                  cases hadd : addPath c (r :: rs) v with
                  | error e =>
                      rw [hadd] at ih
                      simp only [hle, hadd]
                      simpa [resKind] using ih
                  | ok c2 =>
                      rw [hadd] at ih
                      simp [resKind] at ih

theorem addPath_none : ∀ (p : List String) (t v : ConfigNode),
    lookupPath t p = none →
    ∃ t2, addPath t p v = Except.ok t2 ∧ lookupPath t2 p = some v
  | [], t, v => by
      intro h
      rw [lookupPath_nil] at h
      simp at h
  | k :: rest, t, v => by
      intro h
      cases hle : lookupEnt (entsOfNode t) k with
      | some c =>
          have htm : ∃ es, t = ConfigNode.mapping es := by
            cases t with
            | mapping es => exact ⟨es, rfl⟩
            | scalar sc => simp [entsOfNode, lookupEnt] at hle
            | sequence xs => simp [entsOfNode, lookupEnt] at hle
          obtain ⟨es, rfl⟩ := htm
          simp only [entsOfNode] at hle
          simp only [lookupPath, hle] at h
          cases rest with
          | nil =>
              rw [lookupPath_nil] at h
              simp at h
          | cons r rs =>
              obtain ⟨c2, hadd, hlook⟩ := addPath_none (r :: rs) c v h
              refine ⟨ConfigNode.mapping (updateEnt es k c2), ?_, ?_⟩
              · rw [addPath_cons_eq]
                simp only [entsOfNode, hle, hadd]
              · simp only [lookupPath]
                rw [lookupEnt_update_self es k c2 c hle]
                exact hlook
      | none =>
          cases rest with
          | nil =>
              refine ⟨ConfigNode.mapping (appendEnt (entsOfNode t) k v), ?_, ?_⟩
              · rw [addPath_cons_eq]
                simp only [hle]
              · simp only [lookupPath]
                simp only [lookupEnt_append_self (entsOfNode t) k v hle]
          | cons r rs =>
              have hnil : lookupPath (ConfigNode.mapping EntryList.nil) (r :: rs) = none := by
                simp [lookupPath, lookupEnt]
              obtain ⟨c2, hadd, hlook⟩ := addPath_none (r :: rs) (ConfigNode.mapping EntryList.nil) v hnil
              refine ⟨ConfigNode.mapping (appendEnt (entsOfNode t) k c2), ?_, ?_⟩
              · rw [addPath_cons_eq]
                simp only [hle, hadd]
              · simp only [lookupPath]
                simp only [lookupEnt_append_self (entsOfNode t) k c2 hle]
                exact hlook

theorem addPath_frame : ∀ (p : List String) (t v t2 : ConfigNode) (q : List String),
    addPath t p v = Except.ok t2 → pathLe p q = false → pathLe q p = false →
    lookupPath t2 q = lookupPath t q
  | [], t, v, t2, q => by
      intro hadd hpq hqp
      simp [pathLe] at hpq
  | k :: rest, t, v, t2, q => by
      intro hadd hpq hqp
      rw [addPath_cons_eq] at hadd
      cases q with
      | nil => simp [pathLe] at hqp
      | cons j qs =>
          have hlookt : lookupPath t (j :: qs) =
              (match lookupEnt (entsOfNode t) j with
              | some c => lookupPath c qs
              | none => (none : Option ConfigNode)) := by
            cases t with
            | mapping es => simp [lookupPath, entsOfNode]
            | scalar sc => simp [lookupPath, entsOfNode, lookupEnt]
            | sequence xs => simp [lookupPath, entsOfNode, lookupEnt]
          by_cases hj : j = k
          · subst hj
            rw [show pathLe (j :: rest) (j :: qs) = pathLe rest qs by simp [pathLe]] at hpq
            rw [show pathLe (j :: qs) (j :: rest) = pathLe qs rest by simp [pathLe]] at hqp
            cases hle : lookupEnt (entsOfNode t) j with
            | some c =>
                simp only [hle] at hadd
                cases rest with
                | nil => simp at hadd
                | cons r rs =>
                    cases hsub : addPath c (r :: rs) v with
                    | error e =>
                        simp only [hsub] at hadd
                        exact Except.noConfusion hadd
                    | ok c2 =>
                        simp only [hsub, Except.ok.injEq] at hadd
                        subst hadd
                        simp only [lookupPath]
                        simp only [lookupEnt_update_self (entsOfNode t) j c2 c hle]
                        rw [hlookt]
                        simp only [hle]
                        exact addPath_frame (r :: rs) c v c2 qs hsub hpq hqp
            | none =>
                simp only [hle] at hadd
                cases rest with
                | nil => simp [pathLe] at hpq
                | cons r rs =>
                    cases qs with
                    | nil => simp [pathLe] at hqp
                    | cons j2 qs2 =>
                        cases hsub : addPath (ConfigNode.mapping EntryList.nil) (r :: rs) v with
                        | error e =>
                            simp only [hsub] at hadd
                            exact Except.noConfusion hadd
                        | ok c2 =>
                            simp only [hsub, Except.ok.injEq] at hadd
                            subst hadd
                            have hframe := addPath_frame (r :: rs) (ConfigNode.mapping EntryList.nil) v c2
                              (j2 :: qs2) hsub hpq hqp
                            rw [show lookupPath (ConfigNode.mapping EntryList.nil) (j2 :: qs2) = none by
                              simp [lookupPath, lookupEnt]] at hframe
                            simp only [lookupPath]
                            simp only [lookupEnt_append_self (entsOfNode t) j c2 hle]
                            rw [hframe, hlookt]
                            simp only [hle]
          · cases hle : lookupEnt (entsOfNode t) k with
            | some c =>
                simp only [hle] at hadd
                cases rest with
                | nil => simp at hadd
                | cons r rs =>
                    cases hsub : addPath c (r :: rs) v with
                    | error e =>
                        simp only [hsub] at hadd
                        exact Except.noConfusion hadd
                    | ok c2 =>
                        simp only [hsub, Except.ok.injEq] at hadd
                        subst hadd
                        simp only [lookupPath]
                        rw [lookupEnt_update_ne (entsOfNode t) k j c2 hj, hlookt]
            | none =>
                simp only [hle] at hadd
                cases rest with
                | nil =>
                    simp only [Except.ok.injEq] at hadd
                    subst hadd
                    simp only [lookupPath]
                    rw [lookupEnt_append_ne (entsOfNode t) k j v hj, hlookt]
                | cons r rs =>
                    cases hsub : addPath (ConfigNode.mapping EntryList.nil) (r :: rs) v with
                    | error e =>
                        simp only [hsub] at hadd
                        exact Except.noConfusion hadd
                    | ok c2 =>
                        simp only [hsub, Except.ok.injEq] at hadd
                        subst hadd
                        simp only [lookupPath]
                        rw [lookupEnt_append_ne (entsOfNode t) k j c2 hj, hlookt]


theorem deletePath_frame : ∀ (p : List String) (t t2 : ConfigNode) (q : List String),
    deletePath t p = Except.ok t2 → pathLe p q = false → pathLe q p = false →
    lookupPath t2 q = lookupPath t q
  | [], t, t2, q => by
      intro hdel hpq hqp
      simp [deletePath] at hdel
  | k :: rest, t, t2, q => by
      intro hdel hpq hqp
      cases t with
      | scalar sc => simp [deletePath] at hdel
      | sequence xs => simp [deletePath] at hdel
      | mapping es =>
          cases hle : lookupEnt es k with
          | none => simp [deletePath, hle] at hdel
          | some c =>
              cases q with
              | nil => simp [pathLe] at hqp
              | cons j qs =>
                  by_cases hj : j = k
                  · subst hj
                    rw [show pathLe (j :: rest) (j :: qs) = pathLe rest qs by simp [pathLe]] at hpq
                    rw [show pathLe (j :: qs) (j :: rest) = pathLe qs rest by simp [pathLe]] at hqp
                    cases rest with
                    | nil => simp [pathLe] at hpq
                    | cons r rs =>
                        cases hsub : deletePath c (r :: rs) with
                        | error e => simp [deletePath, hle, hsub] at hdel
                        | ok c2 =>
                            simp [deletePath, hle, hsub] at hdel
                            subst hdel
                            simp only [lookupPath]
                            rw [lookupEnt_update_self es j c2 c hle, hle]
                            exact deletePath_frame (r :: rs) c c2 qs hsub hpq hqp
                  · cases rest with
                    | nil =>
                        simp [deletePath, hle] at hdel
                        subst hdel
                        simp only [lookupPath]
                        rw [lookupEnt_remove_ne es k j hj]
                    | cons r rs =>
                        cases hsub : deletePath c (r :: rs) with
                        | error e => simp [deletePath, hle, hsub] at hdel
                        | ok c2 =>
                            simp [deletePath, hle, hsub] at hdel
                            subst hdel
                            simp only [lookupPath]
                            rw [lookupEnt_update_ne es k j c2 hj]

theorem applyOverride_frame (ov : Override) (t t2 : ConfigNode) (q : List String)
    (happl : applyOverride t ov = Except.ok t2) (hcmp : pathCmp ov.path q = false) :
    lookupPath t2 q = lookupPath t q := by
  have hboth : pathLe ov.path q = false ∧ pathLe q ov.path = false := by
    simpa [pathCmp, Bool.or_eq_false_iff] using hcmp
  cases hmode : ov.mode with
  | set =>
      cases hv : ov.value with
      | none => simp [applyOverride, hmode, hv] at happl
      | some v =>
          simp only [applyOverride, hmode, hv] at happl
          exact setPath_frame ov.path t v t2 q happl hboth.1 hboth.2
  | add =>
      cases hv : ov.value with
      | none => simp [applyOverride, hmode, hv] at happl
      | some v =>
          simp only [applyOverride, hmode, hv] at happl
          exact addPath_frame ov.path t v t2 q happl hboth.1 hboth.2
  | del =>
      simp only [applyOverride, hmode] at happl
      exact deletePath_frame ov.path t t2 q happl hboth.1 hboth.2

theorem applyAll_frame : ∀ (ovs : List Override) (t t2 : ConfigNode) (q : List String),
    applyAll t ovs = Except.ok t2 →
    (∀ ov ∈ ovs, pathCmp ov.path q = false) →
    lookupPath t2 q = lookupPath t q := by
  intro ovs
  induction ovs with
  | nil =>
      intro t t2 q hfold hall
      simp only [applyAll, Except.ok.injEq] at hfold
      subst hfold
      rfl
  | cons ov rest ih =>
      intro t t2 q hfold hall
      cases happl : applyOverride t ov with
      | error e =>
          simp only [applyAll, happl] at hfold
          exact Except.noConfusion hfold
      | ok tmid =>
          simp only [applyAll, happl] at hfold
          have h1 := applyOverride_frame ov t tmid q happl (hall ov (by simp))
          have h2 := ih tmid t2 q hfold (fun o ho => hall o (by simp [ho]))
          rw [h2, h1]

/-! Lemmas about the interpolation resolver. -/

theorem resolveWithFuel_succ (root : ConfigNode) (fuel : Nat) (stack : List (List String))
    (t : ConfigNode) :
    resolveWithFuel root (fuel + 1) stack t = mapScalarsN (resolveScalar root fuel stack) t := rfl

mutual
theorem mapScalarsN_id (f : Scalar → Except Err ConfigNode) (g : Scalar → Bool)
    (hf : ∀ sc, g sc = true → f sc = Except.ok (ConfigNode.scalar sc)) :
    ∀ t, scalarsOkN g t = true → mapScalarsN f t = Except.ok t
  | ConfigNode.scalar sc => by
      intro h
      exact hf sc h
  | ConfigNode.mapping es => by
      intro h
      have h2 := mapScalarsE_id f g hf es h
      simp [mapScalarsN, h2, Except.map]
  | ConfigNode.sequence xs => by
      intro h
      have h2 := mapScalarsI_id f g hf xs h
      simp [mapScalarsN, h2, Except.map]

theorem mapScalarsE_id (f : Scalar → Except Err ConfigNode) (g : Scalar → Bool)
    (hf : ∀ sc, g sc = true → f sc = Except.ok (ConfigNode.scalar sc)) :
    ∀ es, scalarsOkE g es = true → mapScalarsE f es = Except.ok es
  | EntryList.nil => by
      intro h
      rfl
  | EntryList.cons k c rest => by
      intro h
      rw [scalarsOkE, Bool.and_eq_true] at h
      have h1 := mapScalarsN_id f g hf c h.1
      have h2 := mapScalarsE_id f g hf rest h.2
      rw [mapScalarsE, h1, h2]

theorem mapScalarsI_id (f : Scalar → Except Err ConfigNode) (g : Scalar → Bool)
    (hf : ∀ sc, g sc = true → f sc = Except.ok (ConfigNode.scalar sc)) :
    ∀ xs, scalarsOkI g xs = true → mapScalarsI f xs = Except.ok xs
  | ItemList.nil => by
      intro h
      rfl
  | ItemList.cons c rest => by
      intro h
      rw [scalarsOkI, Bool.and_eq_true] at h
      have h1 := mapScalarsN_id f g hf c h.1
      have h2 := mapScalarsI_id f g hf rest h.2
      rw [mapScalarsI, h1, h2]
end

theorem resolveScalarWith_tokenFree (follow : List String → Except Err ConfigNode)
    (sc : Scalar) (h : tokenFreeScalar sc = true) :
    resolveScalarWith follow sc = Except.ok (ConfigNode.scalar sc) := by
  cases sc with
  | str s =>
      simp only [tokenFreeScalar, Bool.not_eq_eq_eq_not, Bool.not_true] at h
      simp [resolveScalarWith, h]
  | num n k => rfl
  | bool b => rfl
  | null => rfl

theorem resolveWithFuel_tokenFree (root : ConfigNode) (fuel : Nat)
    (stack : List (List String)) (t : ConfigNode) (h : tokenFree t = true) :
    resolveWithFuel root (fuel + 1) stack t = Except.ok t := by
  rw [resolveWithFuel_succ]
  exact mapScalarsN_id (resolveScalar root fuel stack) tokenFreeScalar
    (fun sc hsc => resolveScalarWith_tokenFree (followRef root fuel stack) sc hsc) t h

theorem resolveInterpolations_tokenFree (t : ConfigNode) (h : tokenFree t = true) :
    resolveInterpolations t = Except.ok t :=
  resolveWithFuel_tokenFree t ((pathsN t).length) [] t h

theorem notFuelOut_error_cast {α β : Type} (e : Err)
    (h : notFuelOut (Except.error e : Except Err α) = true) :
    notFuelOut (Except.error e : Except Err β) = true := by
  cases e <;> simp_all [notFuelOut]

mutual
theorem notFuelOut_mapScalarsN (f : Scalar → Except Err ConfigNode)
    (hf : ∀ sc, notFuelOut (f sc) = true) :
    ∀ t, notFuelOut (mapScalarsN f t) = true
  | ConfigNode.scalar sc => hf sc
  | ConfigNode.mapping es => by
      have h2 := notFuelOut_mapScalarsE f hf es
      simp only [mapScalarsN]
      cases hes : mapScalarsE f es with
      | error e =>
          rw [hes] at h2
          simp only [Except.map]
          exact notFuelOut_error_cast e h2
      | ok es2 => simp [notFuelOut, Except.map]
  | ConfigNode.sequence xs => by
      have h2 := notFuelOut_mapScalarsI f hf xs
      simp only [mapScalarsN]
      cases hxs : mapScalarsI f xs with
      | error e =>
          rw [hxs] at h2
          simp only [Except.map]
          exact notFuelOut_error_cast e h2
      | ok xs2 => simp [notFuelOut, Except.map]

theorem notFuelOut_mapScalarsE (f : Scalar → Except Err ConfigNode)
    (hf : ∀ sc, notFuelOut (f sc) = true) :
    ∀ es, notFuelOut (mapScalarsE f es) = true
  | EntryList.nil => rfl
  | EntryList.cons k c rest => by
      have h1 := notFuelOut_mapScalarsN f hf c
      have h2 := notFuelOut_mapScalarsE f hf rest
      simp only [mapScalarsE]
      cases hc : mapScalarsN f c with
      | error e =>
          rw [hc] at h1
          exact notFuelOut_error_cast e h1
      | ok c2 =>
          cases hrest : mapScalarsE f rest with
          | error e =>
              rw [hrest] at h2
              exact h2
          | ok r2 => simp [notFuelOut]

theorem notFuelOut_mapScalarsI (f : Scalar → Except Err ConfigNode)
    (hf : ∀ sc, notFuelOut (f sc) = true) :
    ∀ xs, notFuelOut (mapScalarsI f xs) = true
  | ItemList.nil => rfl
  | ItemList.cons c rest => by
      have h1 := notFuelOut_mapScalarsN f hf c
      have h2 := notFuelOut_mapScalarsI f hf rest
      simp only [mapScalarsI]
      cases hc : mapScalarsN f c with
      | error e =>
          rw [hc] at h1
          exact notFuelOut_error_cast e h1
      | ok c2 =>
          cases hrest : mapScalarsI f rest with
          | error e =>
              rw [hrest] at h2
              exact h2
          | ok r2 => simp [notFuelOut]
end

theorem notFuelOut_resolveToks (follow : List String → Except Err ConfigNode)
    (hf : ∀ p, notFuelOut (follow p) = true) :
    ∀ (toks : List Token) (acc : String), notFuelOut (resolveToksWith follow toks acc) = true := by
  intro toks
  induction toks with
  | nil => intro acc; rfl
  | cons tok rest ih =>
      intro acc
      cases tok with
      | lit l => simpa [resolveToksWith] using ih (acc ++ l)
      | ref p =>
          simp only [resolveToksWith]
          cases hfp : follow p with
          | error e =>
              have h3 := hf p
              rw [hfp] at h3
              exact notFuelOut_error_cast e h3
          | ok v =>
              cases v with
              | scalar sc2 => exact ih (acc ++ scalarText sc2)
              | mapping es => rfl
              | sequence xs => rfl

theorem notFuelOut_resolveScalarWith (follow : List String → Except Err ConfigNode)
    (hf : ∀ p, notFuelOut (follow p) = true) :
    ∀ sc, notFuelOut (resolveScalarWith follow sc) = true := by
  intro sc
  cases sc with
  | num n k => rfl
  | bool b => rfl
  | null => rfl
  | str s =>
      simp only [resolveScalarWith]
      by_cases h : hasRefTok (splitTokens s) = true
      · rw [if_pos h]
        cases htoks : splitTokens s with
        | nil =>
            rw [htoks] at h
            simp [hasRefTok] at h
        | cons tok rest =>
            have hgen : notFuelOut (resolveToksWith follow (tok :: rest) "") = true :=
              notFuelOut_resolveToks follow hf (tok :: rest) ""
            cases tok with
            | lit l =>
                cases htr : resolveToksWith follow (Token.lit l :: rest) "" with
                | error e =>
                    rw [htr] at hgen
                    simp only [htr]
                    exact notFuelOut_error_cast e hgen
                | ok joined => simp [htr, notFuelOut]
            | ref p =>
                cases rest with
                | nil => exact hf p
                | cons tok2 rest2 =>
                    cases htr : resolveToksWith follow (Token.ref p :: tok2 :: rest2) "" with
                    | error e =>
                        rw [htr] at hgen
                        simp only [htr]
                        exact notFuelOut_error_cast e hgen
                    | ok joined => simp [htr, notFuelOut]
      · rw [if_neg h]
        rfl

theorem mem_pathsE : ∀ (es : EntryList) (k : String) (c : ConfigNode) (q : List String),
    lookupEnt es k = some c → q ∈ pathsN c → (k :: q) ∈ pathsE es
  | EntryList.nil, k, c, q => by
      intro hle hq
      simp [lookupEnt] at hle
  | EntryList.cons k0 c0 rest, k, c, q => by
      intro hle hq
      simp only [lookupEnt] at hle
      by_cases hk : k0 = k
      · subst hk
        simp at hle
        subst hle
        simp only [pathsE, List.mem_append, List.mem_map]
        exact Or.inl ⟨q, hq, rfl⟩
      · rw [if_neg hk] at hle
        simp only [pathsE, List.mem_append]
        exact Or.inr (mem_pathsE rest k c q hle hq)

theorem lookupPath_mem_pathsN : ∀ (p : List String) (t v : ConfigNode),
    lookupPath t p = some v → p ∈ pathsN t
  | [], t, v => by
      intro h
      cases t <;> simp [pathsN]
  | k :: rest, t, v => by
      intro h
      cases t with
      | scalar sc => simp [lookupPath] at h
      | sequence xs => simp [lookupPath] at h
      | mapping es =>
          simp only [lookupPath] at h
          cases hle : lookupEnt es k with
          | none => rw [hle] at h; simp at h
          | some c =>
              rw [hle] at h
              have hmem := lookupPath_mem_pathsN rest c v h
              simp only [pathsN, List.mem_cons]
              exact Or.inr (mem_pathsE es k c rest hle hmem)

theorem filter_length_le_of_cons (p : List String) (stack : List (List String)) :
    ∀ l : List (List String),
    (l.filter (fun q => decide (q ∉ p :: stack))).length ≤
      (l.filter (fun q => decide (q ∉ stack))).length := by
  intro l
  induction l with
  | nil => simp
  | cons x xs ih =>
      by_cases hx2 : x ∈ stack
      · have hd1 : decide (x ∉ p :: stack) = false := by
          simp [List.mem_cons, hx2]
        have hd2 : decide (x ∉ stack) = false := by simp [hx2]
        simp only [List.filter_cons, hd1, hd2, if_false, Bool.false_eq_true]
        exact ih
      · have hd2 : decide (x ∉ stack) = true := by simp [hx2]
        by_cases hx : x = p
        · have hd1 : decide (x ∉ p :: stack) = false := by
            simp [List.mem_cons, hx]
          simp only [List.filter_cons, hd1, hd2, if_false, if_true, Bool.false_eq_true]
          simp only [List.length_cons]
          exact Nat.le_succ_of_le ih
        · have hd1 : decide (x ∉ p :: stack) = true := by
            simp [List.mem_cons, hx, hx2]
          simp only [List.filter_cons, hd1, hd2, if_true]
          simp only [List.length_cons]
          exact Nat.succ_le_succ ih

theorem filter_length_lt (p : List String) (stack : List (List String))
    (hp : p ∉ stack) :
    ∀ l : List (List String), p ∈ l →
    (l.filter (fun q => decide (q ∉ p :: stack))).length <
      (l.filter (fun q => decide (q ∉ stack))).length := by
  intro l
  induction l with
  | nil => intro h; simp at h
  | cons x xs ih =>
      intro hmem
      by_cases hx : x = p
      · subst hx
        have hd1 : decide (x ∉ x :: stack) = false := by simp
        have hd2 : decide (x ∉ stack) = true := by simp [hp]
        simp only [List.filter_cons, hd1, hd2, if_false, if_true, Bool.false_eq_true]
        simp only [List.length_cons]
        exact Nat.lt_succ_of_le (filter_length_le_of_cons x stack xs)
      · have hmem2 : p ∈ xs := by
          cases hmem with
          | head => exact absurd rfl hx
          | tail _ h2 => exact h2
        by_cases hx2 : x ∈ stack
        · have hd1 : decide (x ∉ p :: stack) = false := by
            simp [List.mem_cons, hx2]
          have hd2 : decide (x ∉ stack) = false := by simp [hx2]
          simp only [List.filter_cons, hd1, hd2, if_false, Bool.false_eq_true]
          exact ih hmem2
        · have hd1 : decide (x ∉ p :: stack) = true := by
            simp [List.mem_cons, hx, hx2]
          have hd2 : decide (x ∉ stack) = true := by simp [hx2]
          simp only [List.filter_cons, hd1, hd2, if_true]
          simp only [List.length_cons]
          exact Nat.succ_lt_succ (ih hmem2)

theorem remCount_lt (root : ConfigNode) (stack : List (List String)) (p : List String)
    (v : ConfigNode) (hlook : lookupPath root p = some v) (hp : p ∉ stack) :
    remCount root (p :: stack) < remCount root stack :=
  filter_length_lt p stack hp (pathsN root) (lookupPath_mem_pathsN p root v hlook)

theorem interpNotFuelOut : ∀ (fuel : Nat) (root : ConfigNode) (stack : List (List String))
    (t : ConfigNode), remCount root stack < fuel →
    notFuelOut (resolveWithFuel root fuel stack t) = true := by
  intro fuel
  induction fuel with
  | zero =>
      intro root stack t h
      simp at h
  | succ fuel ih =>
      intro root stack t h
      rw [resolveWithFuel_succ]
      refine notFuelOut_mapScalarsN (resolveScalar root fuel stack) ?_ t
      intro sc
      refine notFuelOut_resolveScalarWith (followRef root fuel stack) ?_ sc
      intro p
      simp only [followRef]
      by_cases hmem : p ∈ stack
      · rw [if_pos hmem]
        rfl
      · rw [if_neg hmem]
        cases hlook : lookupPath root p with
        | none => rfl
        | some v =>
            refine ih root (p :: stack) v ?_
            have h2 := remCount_lt root stack p v hlook hmem
            omega

theorem resolveInterpolations_notFuelOut (t : ConfigNode) :
    notFuelOut (resolveInterpolations t) = true := by
  refine interpNotFuelOut (fuelInterp t) t [] t ?_
  have h2 : remCount t [] ≤ (pathsN t).length := List.length_filter_le _ _
  simp only [fuelInterp]
  omega

mutual
theorem beqN_refl : ∀ t : ConfigNode, beqN t t = true
  | ConfigNode.scalar sc => by
      cases sc <;> simp [beqN, beqScalar]
  | ConfigNode.mapping es => by
      simpa [beqN] using beqE_refl es
  | ConfigNode.sequence xs => by
      simpa [beqN] using beqI_refl xs

theorem beqE_refl : ∀ es : EntryList, beqE es es = true
  | EntryList.nil => rfl
  | EntryList.cons k c rest => by
      simp [beqE, beqN_refl c, beqE_refl rest]

theorem beqI_refl : ∀ xs : ItemList, beqI xs xs = true
  | ItemList.nil => rfl
  | ItemList.cons c rest => by
      simp [beqI, beqN_refl c, beqI_refl rest]
end

theorem followRef_tokenFree (root : ConfigNode) (fuel : Nat) (stack : List (List String))
    (p : List String) (v : ConfigNode) (hmem : p ∉ stack)
    (hlook : lookupPath root p = some v) (hfree : tokenFree v = true) :
    followRef root (fuel + 1) stack p = Except.ok v := by
  simp only [followRef]
  rw [if_neg hmem, hlook]
  exact resolveWithFuel_tokenFree root fuel (p :: stack) v hfree

theorem string_empty_append (s : String) : "" ++ s = s := by
  cases s with
  | mk data => rfl

theorem string_append_empty (s : String) : s ++ "" = s := by
  cases s with
  | mk data =>
      show String.mk (data ++ []) = String.mk data
      rw [List.append_nil]

theorem string_append_assoc (a b c : String) : a ++ b ++ c = a ++ (b ++ c) := by
  cases a with
  | mk da =>
      cases b with
      | mk db =>
          cases c with
          | mk dc =>
              show String.mk (da ++ db ++ dc) = String.mk (da ++ (db ++ dc))
              rw [List.append_assoc]

theorem resolveToks_scalars (root : ConfigNode) (fuel : Nat) (stack : List (List String)) :
    ∀ (toks : List Token) (acc : String),
    (∀ q, Token.ref q ∈ toks → q ∉ stack ∧
      ∃ sc, lookupPath root q = some (ConfigNode.scalar sc) ∧ tokenFreeScalar sc = true) →
    resolveToksWith (followRef root (fuel + 1) stack) toks acc =
      Except.ok (acc ++ joinToks root toks) := by
  intro toks
  induction toks with
  | nil =>
      intro acc h
      simp [resolveToksWith, joinToks, string_append_empty]
  | cons tok rest ih =>
      intro acc h
      cases tok with
      | lit l =>
          simp only [resolveToksWith]
          rw [ih (acc ++ l) (fun q hq => h q (List.mem_cons_of_mem _ hq))]
          simp only [joinToks]
          rw [string_append_assoc]
      | ref q =>
          obtain ⟨hmem, sc, hlook, hfree⟩ := h q (List.mem_cons_self _ _)
          have hfol := followRef_tokenFree root fuel stack q (ConfigNode.scalar sc) hmem hlook hfree
          simp only [resolveToksWith, hfol]
          rw [ih (acc ++ scalarText sc) (fun q2 hq2 => h q2 (List.mem_cons_of_mem _ hq2))]
          simp only [joinToks, hlook]
          rw [string_append_assoc]

theorem resolveToks_container (root : ConfigNode) (fuel : Nat) (stack : List (List String)) :
    ∀ (toks : List Token) (acc : String),
    (∀ q, Token.ref q ∈ toks → q ∉ stack ∧
      ∃ w, lookupPath root q = some w ∧ tokenFree w = true) →
    (∃ q w, Token.ref q ∈ toks ∧ lookupPath root q = some w ∧ isContainer w = true) →
    resKind (resolveToksWith (followRef root (fuel + 1) stack) toks acc) = RKind.typeWrong := by
  intro toks
  induction toks with
  | nil =>
      intro acc h hex
      obtain ⟨q, w, hq, hlk, hc⟩ := hex
      simp at hq
  | cons tok rest ih =>
      intro acc h hex
      cases tok with
      | lit l =>
          simp only [resolveToksWith]
          refine ih (acc ++ l) (fun q hq => h q (List.mem_cons_of_mem _ hq)) ?_
          obtain ⟨q, w, hq, hlk, hc⟩ := hex
          cases hq with
          | tail _ h2 => exact ⟨q, w, h2, hlk, hc⟩
      | ref q0 =>
          obtain ⟨hmem, w0, hlook0, hfree0⟩ := h q0 (List.mem_cons_self _ _)
          have hfol := followRef_tokenFree root fuel stack q0 w0 hmem hlook0 hfree0
          cases w0 with
          | mapping es => simp [resolveToksWith, hfol, resKind, errKind]
          | sequence xs => simp [resolveToksWith, hfol, resKind, errKind]
          | scalar sc =>
              simp only [resolveToksWith, hfol]
              refine ih (acc ++ scalarText sc) (fun q2 hq2 => h q2 (List.mem_cons_of_mem _ hq2)) ?_
              obtain ⟨q, w, hq, hlk, hc⟩ := hex
              cases hq with
              | head =>
                  have h3 : some (ConfigNode.scalar sc) = some w := hlook0.symm.trans hlk
                  injection h3 with h4
                  rw [← h4] at hc
                  simp [isContainer] at hc
              | tail _ h2 => exact ⟨q, w, h2, hlk, hc⟩

/-! The claims. -/

/-- Claim C1, counterexample to the claim as stated: on the base tree the
specification itself gives (which already holds mlp.dropout equal to 0.1),
the override with a leading plus parses to mode Add, and composition fails
with KeyAlreadyExistsError instead of succeeding, because Add requires the
final key not to exist yet. -/
theorem c1_composeClaimedFails :
    compose ex1Base ex1Ovs = Except.error (Err.keyAlreadyExists ["dropout"]) := rfl

/-- Claim C1, amended: on the same base without the pre-existing dropout
key, composing with the ordered overrides (the first parsed with mode Add,
the second with mode Set) succeeds and yields exactly the stated tree, the
override values 0.5 and 150 stored as numeric Scalars. -/
theorem c1_composeAmended : compose ex1BaseB ex1Ovs = Except.ok ex1Expected := rfl

/-- Claim C5: resolving the tree with a at dollar-brace-b and b at
dollar-brace-a fails with CyclicInterpolationError naming the re-entered
path and the visitation stack, whether resolution starts at a, at b, or at
the whole tree. -/
theorem c5_cycleDetection :
    resolvePathTop cycTree ["a"] =
        Except.error (Err.cyclicInterpolation ["a"] [["b"], ["a"]]) ∧
    resolvePathTop cycTree ["b"] =
        Except.error (Err.cyclicInterpolation ["b"] [["a"], ["b"]]) ∧
    resolveInterpolations cycTree =
        Except.error (Err.cyclicInterpolation ["b"] [["a"], ["b"]]) :=
  ⟨rfl, rfl, rfl⟩

/-- Claim C7: interpolation resolution is transitive, so the tree with a at
1, b referencing a and c embedding b in text resolves to a at 1, b at 1 and
c at the string value is 1. -/
theorem c7_transitiveResolution : resolveInterpolations ex7Tree = Except.ok ex7Expected := rfl

/-- Claim C6, counterexample to the composition half of the claim: text
concatenation can manufacture a new interpolation token (a literal dollar
followed by substituted brace text), so one resolution of ex6Tree succeeds
with a tree that still holds a token, and a second resolution follows that
token and returns a different tree. -/
theorem c6_idempotenceCounter :
    resolveInterpolations ex6Tree = Except.ok ex6Once ∧
    resolveInterpolations ex6Once = Except.ok ex6Twice ∧
    beqN ex6Once ex6Twice = false :=
  ⟨rfl, rfl, rfl⟩

/-- Claim C2: for every tree and dotted path, an Add override whose final
key already exists fails with KeyAlreadyExistsError, a Set override whose
path does not fully resolve (missing final key or intermediate segments not
resolving to existing Mappings) fails with PathNotFoundError, and an Add
override on a missing final key creates the missing intermediate Mapping
nodes and succeeds, with the value then found at the path. -/
theorem c2_addSetContract (t : ConfigNode) (p : List String) (v : ConfigNode) :
    ((lookupPath t p).isSome = true →
      resKind (applyOverride t ⟨p, OvMode.add, some v⟩) = RKind.keyExists) ∧
    (lookupPath t p = none →
      resKind (applyOverride t ⟨p, OvMode.set, some v⟩) = RKind.pathMissing) ∧
    (lookupPath t p = none →
      ∃ t2, applyOverride t ⟨p, OvMode.add, some v⟩ = Except.ok t2 ∧
        lookupPath t2 p = some v) := by
  refine ⟨?_, ?_, ?_⟩
  · intro h
    simp only [applyOverride]
    exact addPath_isSome p t v h
  · intro h
    simp only [applyOverride]
    exact setPath_kind_none p t v h
  · intro h
    simp only [applyOverride]
    exact addPath_none p t v h

/-- Witness for claim C2 at a concrete tree: Add on the existing key a
fails with KeyAlreadyExistsError, Set on the missing key b fails with
PathNotFoundError, and Add on the missing path b.z succeeds and stores the
value. -/
theorem c2_addSetContract_witness :
    resKind (applyOverride ex4Tree ⟨["a"], OvMode.add, some (ConfigNode.scalar (Scalar.num 9 0))⟩) =
        RKind.keyExists ∧
    resKind (applyOverride ex4Tree ⟨["b", "z"], OvMode.set, some (ConfigNode.scalar (Scalar.num 9 0))⟩) =
        RKind.pathMissing ∧
    ∃ t2, applyOverride ex4Tree ⟨["b", "z"], OvMode.add, some (ConfigNode.scalar (Scalar.num 9 0))⟩ =
        Except.ok t2 ∧ lookupPath t2 ["b", "z"] = some (ConfigNode.scalar (Scalar.num 9 0)) := by
  refine ⟨?_, ?_, ?_⟩
  · exact (c2_addSetContract ex4Tree ["a"] (ConfigNode.scalar (Scalar.num 9 0))).1 (by decide)
  · exact (c2_addSetContract ex4Tree ["b", "z"] (ConfigNode.scalar (Scalar.num 9 0))).2.1 rfl
  · exact (c2_addSetContract ex4Tree ["b", "z"] (ConfigNode.scalar (Scalar.num 9 0))).2.2 rfl

/-- Claim C3: overrides are applied strictly in input order with
last-write-wins per path.  On every tree containing the path a.b, applying
the raw overrides a.b=1 then a.b=2 leaves a.b equal to the number 2, and
applying a.b=2 then a.b=1 leaves a.b equal to the number 1. -/
theorem c3_lastWriteWins (t : ConfigNode) (h : (lookupPath t ["a", "b"]).isSome = true) :
    (∃ t2, applyOverrides t ["a.b=1", "a.b=2"] = Except.ok t2 ∧
      lookupPath t2 ["a", "b"] = some (ConfigNode.scalar (Scalar.num 2 0))) ∧
    (∃ t2, applyOverrides t ["a.b=2", "a.b=1"] = Except.ok t2 ∧
      lookupPath t2 ["a", "b"] = some (ConfigNode.scalar (Scalar.num 1 0))) := by
  obtain ⟨w, hw⟩ := Option.isSome_iff_exists.mp h
  constructor
  · have hparse : parseAll ["a.b=1", "a.b=2"] = Except.ok
        [⟨["a", "b"], OvMode.set, some (ConfigNode.scalar (Scalar.num 1 0))⟩,
         ⟨["a", "b"], OvMode.set, some (ConfigNode.scalar (Scalar.num 2 0))⟩] := rfl
    obtain ⟨t1, hset1, hlook1⟩ :=
      setPath_ok ["a", "b"] t w (ConfigNode.scalar (Scalar.num 1 0)) hw
    obtain ⟨t2, hset2, hlook2⟩ :=
      setPath_ok ["a", "b"] t1 (ConfigNode.scalar (Scalar.num 1 0))
        (ConfigNode.scalar (Scalar.num 2 0)) hlook1
    refine ⟨t2, ?_, hlook2⟩
    simp only [applyOverrides, hparse, applyAll, applyOverride, hset1, hset2]
  · have hparse : parseAll ["a.b=2", "a.b=1"] = Except.ok
        [⟨["a", "b"], OvMode.set, some (ConfigNode.scalar (Scalar.num 2 0))⟩,
         ⟨["a", "b"], OvMode.set, some (ConfigNode.scalar (Scalar.num 1 0))⟩] := rfl
    obtain ⟨t1, hset1, hlook1⟩ :=
      setPath_ok ["a", "b"] t w (ConfigNode.scalar (Scalar.num 2 0)) hw
    obtain ⟨t2, hset2, hlook2⟩ :=
      setPath_ok ["a", "b"] t1 (ConfigNode.scalar (Scalar.num 2 0))
        (ConfigNode.scalar (Scalar.num 1 0)) hlook1
    refine ⟨t2, ?_, hlook2⟩
    simp only [applyOverrides, hparse, applyAll, applyOverride, hset1, hset2]

/-- Witness for claim C3 at a concrete tree containing a.b. -/
theorem c3_lastWriteWins_witness :
    (∃ t2, applyOverrides (ConfigNode.mapping (entsOf [("a", ConfigNode.mapping
        (entsOf [("b", ConfigNode.scalar (Scalar.num 0 0))]))])) ["a.b=1", "a.b=2"] =
        Except.ok t2 ∧
      lookupPath t2 ["a", "b"] = some (ConfigNode.scalar (Scalar.num 2 0))) ∧
    (∃ t2, applyOverrides (ConfigNode.mapping (entsOf [("a", ConfigNode.mapping
        (entsOf [("b", ConfigNode.scalar (Scalar.num 0 0))]))])) ["a.b=2", "a.b=1"] =
        Except.ok t2 ∧
      lookupPath t2 ["a", "b"] = some (ConfigNode.scalar (Scalar.num 1 0))) :=
  c3_lastWriteWins (ConfigNode.mapping (entsOf [("a", ConfigNode.mapping
    (entsOf [("b", ConfigNode.scalar (Scalar.num 0 0))]))])) (by decide)

/-- Claim C4: applyOverrides is atomic.  In the state-passing form, a
failing run (including one whose later override fails to parse or to
apply) leaves the working tree exactly as it was, and a successful run is
exactly the in-order application of the buffered parses of all raw
override strings. -/
theorem c4_atomicity (t : ConfigNode) (raws : List String) :
    ((runApplyOverrides t raws).2.isSome = true → (runApplyOverrides t raws).1 = t) ∧
    ((runApplyOverrides t raws).2 = none →
      ∃ ovs, parseAll raws = Except.ok ovs ∧
        applyAll t ovs = Except.ok (runApplyOverrides t raws).1) := by
  cases h : applyOverrides t raws with
  | ok t2 =>
      constructor
      · intro h2
        simp [runApplyOverrides, h] at h2
      · intro h2
        have h3 := h
        simp only [applyOverrides] at h3
        cases hp : parseAll raws with
        | error e => rw [hp] at h3; exact Except.noConfusion h3
        | ok ovs =>
            simp only [hp] at h3
            exact ⟨ovs, rfl, by simp [runApplyOverrides, h, h3]⟩
  | error e =>
      constructor
      · intro h2
        simp [runApplyOverrides, h]
      · intro h2
        simp [runApplyOverrides, h] at h2

/-- Witness for claim C4: a list whose second override fails to parse rolls
the tree back, a list whose second override fails to apply rolls the tree
back even though the first had been applied, and a fully valid list
succeeds with the in-order result. -/
theorem c4_atomicity_witness :
    ((runApplyOverrides ex4Tree ["a=2", "+bad"]).2.isSome = true →
      (runApplyOverrides ex4Tree ["a=2", "+bad"]).1 = ex4Tree) ∧
    ((runApplyOverrides ex4Tree ["a=2", "+a=3"]).2.isSome = true →
      (runApplyOverrides ex4Tree ["a=2", "+a=3"]).1 = ex4Tree) ∧
    ((runApplyOverrides ex4Tree ["a=2"]).2 = none →
      ∃ ovs, parseAll ["a=2"] = Except.ok ovs ∧
        applyAll ex4Tree ovs = Except.ok (runApplyOverrides ex4Tree ["a=2"]).1) :=
  ⟨(c4_atomicity ex4Tree ["a=2", "+bad"]).1,
   (c4_atomicity ex4Tree ["a=2", "+a=3"]).1,
   (c4_atomicity ex4Tree ["a=2"]).2⟩

/-- Claim C6, amended: resolving interpolations on a tree with no
interpolation token in any Scalar string succeeds and returns the tree
unchanged, and resolveInterpolations composed with itself equals a single
application on every tree whose single application succeeds with a
token-free result (text concatenation can manufacture a new token, so the
restriction to token-free results is necessary). -/
theorem c6_idempotenceAmended :
    (∀ t, tokenFree t = true → resolveInterpolations t = Except.ok t) ∧
    (∀ t t2, resolveInterpolations t = Except.ok t2 → tokenFree t2 = true →
      resolveInterpolations t2 = Except.ok t2) :=
  ⟨resolveInterpolations_tokenFree,
   fun _ t2 _ h2 => resolveInterpolations_tokenFree t2 h2⟩

/-- Witness for claim C6 at the already-resolved transitive example
tree. -/
theorem c6_idempotenceAmended_witness :
    resolveInterpolations ex7Expected = Except.ok ex7Expected :=
  c6_idempotenceAmended.1 ex7Expected rfl

/-- Claim C8: a Scalar string that is exactly one interpolation token is
substituted by the referenced ConfigNode verbatim (here with a token-free
referent, which resolves to itself, so the result may be a Mapping or a
Sequence).  A Scalar string whose tokens are not exactly one reference (a
token surrounded by other text or further tokens, in any order) is a
text-concatenation context: when every referenced value is a token-free
Scalar the string is rebuilt with each reference substituted via string
conversion, and when some referenced value is a Mapping or Sequence
resolution fails with TypeMismatchError. -/
theorem c8_substitution (root : ConfigNode) (fuel : Nat) (stack : List (List String))
    (s s2 s3 : String) (p : List String) (v : ConfigNode)
    (toks2 toks3 : List Token) :
    (splitTokens s = [Token.ref p] → lookupPath root p = some v → tokenFree v = true →
      p ∉ stack →
      resolveWithFuel root (fuel + 2) stack (ConfigNode.scalar (Scalar.str s)) = Except.ok v) ∧
    (splitTokens s2 = toks2 → hasRefTok toks2 = true → (∀ q, toks2 ≠ [Token.ref q]) →
      (∀ q, Token.ref q ∈ toks2 → q ∉ stack ∧
        ∃ sc, lookupPath root q = some (ConfigNode.scalar sc) ∧ tokenFreeScalar sc = true) →
      resolveWithFuel root (fuel + 2) stack (ConfigNode.scalar (Scalar.str s2)) =
        Except.ok (ConfigNode.scalar (Scalar.str (joinToks root toks2)))) ∧
    (splitTokens s3 = toks3 → hasRefTok toks3 = true → (∀ q, toks3 ≠ [Token.ref q]) →
      (∀ q, Token.ref q ∈ toks3 → q ∉ stack ∧
        ∃ w, lookupPath root q = some w ∧ tokenFree w = true) →
      (∃ q w, Token.ref q ∈ toks3 ∧ lookupPath root q = some w ∧ isContainer w = true) →
      resKind (resolveWithFuel root (fuel + 2) stack (ConfigNode.scalar (Scalar.str s3))) =
        RKind.typeWrong) := by
  refine ⟨?_, ?_, ?_⟩
  · intro h1 h2 h3 h4
    show mapScalarsN (resolveScalar root (fuel + 1) stack) (ConfigNode.scalar (Scalar.str s)) =
      Except.ok v
    simp only [mapScalarsN, resolveScalar, resolveScalarWith, h1]
    simp only [hasRefTok, List.any_cons, List.any_nil, isRefTok, Bool.or_false, if_true]
    exact followRef_tokenFree root fuel stack p v h4 h2 h3
  · intro h1 h2 h3 h4
    show mapScalarsN (resolveScalar root (fuel + 1) stack) (ConfigNode.scalar (Scalar.str s2)) =
      Except.ok (ConfigNode.scalar (Scalar.str (joinToks root toks2)))
    simp only [mapScalarsN, resolveScalar, resolveScalarWith, h1, h2, if_true]
    cases toks2 with
    | nil => simp [hasRefTok] at h2
    | cons t1 rest =>
        have hfold := resolveToks_scalars root fuel stack (t1 :: rest) "" h4
        rw [string_empty_append] at hfold
        cases t1 with
        | lit l => simp only [hfold]
        | ref q =>
            cases rest with
            | nil => exact absurd rfl (h3 q)
            | cons t2 rest2 => simp only [hfold]
  · intro h1 h2 h3 h4 h5
    show resKind (mapScalarsN (resolveScalar root (fuel + 1) stack)
      (ConfigNode.scalar (Scalar.str s3))) = RKind.typeWrong
    simp only [mapScalarsN, resolveScalar, resolveScalarWith, h1, h2, if_true]
    cases toks3 with
    | nil => simp [hasRefTok] at h2
    | cons t1 rest =>
        have hkind := resolveToks_container root fuel stack (t1 :: rest) "" h4 h5
        cases hres : resolveToksWith (followRef root (fuel + 1) stack) (t1 :: rest) "" with
        | ok j =>
            rw [hres] at hkind
            simp [resKind] at hkind
        | error e =>
            rw [hres] at hkind
            simp only [resKind] at hkind
            cases t1 with
            | lit l =>
                simp only [hres]
                simpa [resKind] using hkind
            | ref q =>
                cases rest with
                | nil => exact absurd rfl (h3 q)
                | cons t2 rest2 =>
                    simp only [hres]
                    simpa [resKind] using hkind

/-- Witness for claim C8 at a tree holding a Mapping at m and the number 1
at m.x: the whole-token string substitutes the Mapping verbatim, the
text-context string referencing the Scalar at m.x is rebuilt via string
conversion to the text x is 1, and the text-context string referencing the
Mapping at m fails with TypeMismatchError. -/
theorem c8_substitution_witness :
    resolveWithFuel ex8Tree 2 [] (ConfigNode.scalar (Scalar.str "${m}")) =
        Except.ok (ConfigNode.mapping (entsOf [("x", ConfigNode.scalar (Scalar.num 1 0))])) ∧
    resolveWithFuel ex8Tree 2 [] (ConfigNode.scalar (Scalar.str "x is ${m.x}")) =
        Except.ok (ConfigNode.scalar (Scalar.str "x is 1")) ∧
    resKind (resolveWithFuel ex8Tree 2 [] (ConfigNode.scalar (Scalar.str "m is ${m}"))) =
        RKind.typeWrong := by
  refine ⟨?_, ?_, ?_⟩
  · exact (c8_substitution ex8Tree 0 [] "${m}" "x is ${m.x}" "m is ${m}" ["m"]
      (ConfigNode.mapping (entsOf [("x", ConfigNode.scalar (Scalar.num 1 0))]))
      [Token.lit "x is ", Token.ref ["m", "x"]]
      [Token.lit "m is ", Token.ref ["m"]]).1 rfl rfl rfl (by simp)
  · exact (c8_substitution ex8Tree 0 [] "${m}" "x is ${m.x}" "m is ${m}" ["m"]
      (ConfigNode.mapping (entsOf [("x", ConfigNode.scalar (Scalar.num 1 0))]))
      [Token.lit "x is ", Token.ref ["m", "x"]]
      [Token.lit "m is ", Token.ref ["m"]]).2.1 rfl rfl
      (by intro q h; simp at h)
      (by
        intro q hq
        simp at hq
        subst hq
        exact ⟨by simp, Scalar.num 1 0, rfl, rfl⟩)
  · exact (c8_substitution ex8Tree 0 [] "${m}" "x is ${m.x}" "m is ${m}" ["m"]
      (ConfigNode.mapping (entsOf [("x", ConfigNode.scalar (Scalar.num 1 0))]))
      [Token.lit "x is ", Token.ref ["m", "x"]]
      [Token.lit "m is ", Token.ref ["m"]]).2.2 rfl rfl
      (by intro q h; simp at h)
      (by
        intro q hq
        simp at hq
        subst hq
        exact ⟨by simp, ConfigNode.mapping (entsOf [("x", ConfigNode.scalar (Scalar.num 1 0))]),
          rfl, rfl⟩)
      ⟨["m"], ConfigNode.mapping (entsOf [("x", ConfigNode.scalar (Scalar.num 1 0))]),
        by simp, rfl, rfl⟩

/-- Claim C9: the resolver operations are total functions of this
development and resolveInterpolations can never exhaust its fuel, so on
every input it terminates with an ordinary result; on a tree with a
reference cycle it terminates by failing with CyclicInterpolationError
rather than looping. -/
theorem c9_termination :
    (∀ t, notFuelOut (resolveInterpolations t) = true) ∧
    resKind (resolveInterpolations cycTree) = RKind.cyclicRef :=
  ⟨resolveInterpolations_notFuelOut, rfl⟩

/-- Claim C10, counterexample to the claim as stated: the dotted path
a.b.z is neither an override path of the list nor a prefix of one, but the
Set override on a.b replaces the whole subtree below a.b, so the value at
a.b.z does not keep its value (the claim must also exclude extensions of
override paths). -/
theorem c10_frameCounter :
    applyOverrides ex10Tree ["a.b=1"] = Except.ok ex10TreeAfter ∧
    pathLe ["a", "b", "z"] ["a", "b"] = false ∧
    lookupPath ex10Tree ["a", "b", "z"] = some (ConfigNode.scalar (Scalar.num 7 0)) ∧
    lookupPath ex10TreeAfter ["a", "b", "z"] = none :=
  ⟨rfl, rfl, rfl, rfl⟩

/-- Claim C10, amended: a successfully applied override list changes only
locations comparable with its override paths.  Every dotted path that is
incomparable with every override path of the list (neither a prefix of an
override path, nor equal to one, nor an extension of one) keeps its
value. -/
theorem c10_frameAmended (t : ConfigNode) (raws : List String) (t2 : ConfigNode)
    (ovs : List Override) (q : List String)
    (hp : parseAll raws = Except.ok ovs)
    (happ : applyOverrides t raws = Except.ok t2)
    (hdisj : ∀ ov ∈ ovs, pathCmp ov.path q = false) :
    lookupPath t2 q = lookupPath t q := by
  simp only [applyOverrides, hp] at happ
  exact applyAll_frame ovs t t2 q happ hdisj

/-- Witness for claim C10 at the composed example with the target key:
mlp.hidden_channels is untouched by the overrides addressing only
mlp.dropout and mlp.in_channels. -/
theorem c10_frameAmended_witness :
    lookupPath ex10After ["mlp", "hidden_channels"] =
      lookupPath ex10Base ["mlp", "hidden_channels"] :=
  c10_frameAmended ex10Base ["+mlp.dropout=0.5", "mlp.in_channels=150"] ex10After
    [⟨["mlp", "dropout"], OvMode.add, some (ConfigNode.scalar (Scalar.num 5 1))⟩,
     ⟨["mlp", "in_channels"], OvMode.set, some (ConfigNode.scalar (Scalar.num 150 0))⟩]
    ["mlp", "hidden_channels"] rfl rfl (by decide)

end ConfigResolver
